import Mathlib

/-!
Verification of the Ethereum sentry core (`src/main.rs`, `devp2p/src/peer_id.rs`)
against its natural-language specification.

The embedding is shallow: peers (`PeerIdHash` values) are modelled as `Nat`,
the Rust `HashMap`/`BTreeMap` structures as functions into `Option`
(`none` = key absent, matching map-entry presence, which is observable in the
source through entry pruning), and `HashSet` as `Finset Nat`.
External crates (`rlp`, `ethereum-forkid`, `secp256k1` key handling in the
dispatcher, tokio channels) appear as abstract parameters: the claims under
verification are conditional on their outcomes, never on their internals.
-/

namespace Sentry

/-- Peers are identified by their `PeerIdHash` (a 256-bit value in the source);
modelled as `Nat`. -/
abbrev Peer := Nat

/-! ## BlockTracker (`src/main.rs` lines 61-111) -/

/-- Model of `BlockTracker`: `block_by_peer: HashMap<PeerIdHash, u64>` and
`peers_by_block: BTreeMap<u64, HashSet<PeerIdHash>>`.  A map is a function into
`Option`; `peers_by_block b = none` means the key `b` is absent (pruned). -/
structure BlockTracker where
  block_by_peer : Peer → Option Nat
  peers_by_block : Nat → Option (Finset Peer)

/-- The empty (default) tracker. -/
def BlockTracker.empty : BlockTracker :=
  { block_by_peer := fun _ => none, peers_by_block := fun _ => none }

/-- Remove `peer` from bucket `b` of `m`, pruning the bucket if it becomes
empty; mirrors the `Entry::Occupied` branch shared by `set_block_number` and
`remove_peer` (`entry.get_mut().remove(&peer); if entry.get().is_empty() { entry.remove() }`). -/
def removeFromBucket (m : Nat → Option (Finset Peer)) (b : Nat) (peer : Peer) :
    Nat → Option (Finset Peer) :=
  fun b2 =>
    match m b with
    | none => m b2
    | some s =>
      if b2 = b then
        if s.erase peer = ∅ then none else some (s.erase peer)
      else m b2

/-- Mirrors `self.peers_by_block.entry(block).or_default().insert(peer)`. -/
def insertIntoBucket (m : Nat → Option (Finset Peer)) (b : Nat) (peer : Peer) :
    Nat → Option (Finset Peer) :=
  fun b2 => if b2 = b then some (insert peer ((m b).getD ∅)) else m b2

/-- Model of `BlockTracker::set_block_number` (`src/main.rs` lines 68-90).  If the peer
is vacant and `force_create` is false the call returns early; otherwise the
entry is set to `block`, the peer is removed from its old bucket (pruning an
emptied bucket) and inserted into the bucket for `block`. -/
def BlockTracker.set_block_number (t : BlockTracker) (peer : Peer) (block : Nat)
    (force_create : Bool) : BlockTracker :=
  match t.block_by_peer peer with
  | none =>
    if force_create then
      { block_by_peer := Function.update t.block_by_peer peer (some block),
        peers_by_block := insertIntoBucket t.peers_by_block block peer }
    else t
  | some old_block =>
    { block_by_peer := Function.update t.block_by_peer peer (some block),
      peers_by_block :=
        insertIntoBucket (removeFromBucket t.peers_by_block old_block peer) block peer }

/-- Model of `BlockTracker::remove_peer` (`src/main.rs` lines 92-102). -/
def BlockTracker.remove_peer (t : BlockTracker) (peer : Peer) : BlockTracker :=
  match t.block_by_peer peer with
  | none => t
  | some block =>
    { block_by_peer := Function.update t.block_by_peer peer none,
      peers_by_block := removeFromBucket t.peers_by_block block peer }

/-- Holds when `peer` is a member of the bucket for `b` in `m`. -/
def inBucket (m : Nat → Option (Finset Peer)) (peer : Peer) (b : Nat) : Prop :=
  ∃ s, m b = some s ∧ peer ∈ s

/-- Invariant I1: `p ∈ block_by_peer` with value `b` iff `p ∈ peers_by_block[b]`
(the iff form forces that no other bucket contains `p`, since bucket membership
at `b` pins `block_by_peer p` to `some b`). -/
def I1 (t : BlockTracker) : Prop :=
  ∀ p b, t.block_by_peer p = some b ↔ inBucket t.peers_by_block p b

/-- Invariant I2: every present entry of `peers_by_block` is a non-empty set. -/
def I2 (t : BlockTracker) : Prop :=
  ∀ b s, t.peers_by_block b = some s → s ≠ ∅

theorem I1_empty : I1 BlockTracker.empty := by
  intro p b
  simp [BlockTracker.empty, inBucket]

theorem I2_empty : I2 BlockTracker.empty := by
  intro b s h
  simp [BlockTracker.empty] at h

theorem inBucket_insertIntoBucket_self (m : Nat → Option (Finset Peer)) (b : Nat)
    (peer p : Peer) :
    inBucket (insertIntoBucket m b peer) p b ↔ p = peer ∨ inBucket m p b := by
  unfold insertIntoBucket inBucket
  simp only [if_pos rfl]
  constructor
  · rintro ⟨s, hs, hp⟩
    obtain rfl : insert peer ((m b).getD ∅) = s := by injection hs
    rcases Finset.mem_insert.mp hp with h | h
    · exact Or.inl h
    · cases hmb : m b with
      | none => simp [hmb] at h
      | some s0 => exact Or.inr ⟨s0, rfl, by simpa [hmb] using h⟩
  · rintro (h | ⟨s, hs, hp⟩)
    · exact ⟨_, rfl, Finset.mem_insert.mpr (Or.inl h)⟩
    · exact ⟨_, rfl, Finset.mem_insert.mpr (Or.inr (by simp [hs, hp]))⟩

theorem inBucket_insertIntoBucket_other (m : Nat → Option (Finset Peer)) (b : Nat)
    (peer p : Peer) (b2 : Nat) (hb : b2 ≠ b) :
    inBucket (insertIntoBucket m b peer) p b2 ↔ inBucket m p b2 := by
  unfold insertIntoBucket inBucket
  simp only [if_neg hb]

theorem inBucket_removeFromBucket_self (m : Nat → Option (Finset Peer)) (b : Nat)
    (peer p : Peer) :
    inBucket (removeFromBucket m b peer) p b ↔ inBucket m p b ∧ p ≠ peer := by
  unfold removeFromBucket
  cases hmb : m b with
  | none =>
    simp only [inBucket]
    constructor
    · rintro ⟨s, hs, hp⟩
      rw [hmb] at hs
      exact Option.noConfusion hs
    · rintro ⟨⟨s, hs, hp⟩, -⟩
      rw [hmb] at hs
      exact Option.noConfusion hs
  | some s =>
    simp only [inBucket, if_pos rfl]
    by_cases he : s.erase peer = ∅
    · simp only [if_pos he]
      constructor
      · rintro ⟨s2, hs2, -⟩
        exact Option.noConfusion hs2
      · rintro ⟨⟨s2, hs2, hp⟩, hne⟩
        obtain rfl : s = s2 := by rw [hmb] at hs2; injection hs2
        have : p ∈ s.erase peer := Finset.mem_erase.mpr ⟨hne, hp⟩
        rw [he] at this
        exact absurd this (Finset.not_mem_empty p)
    · simp only [if_neg he]
      constructor
      · rintro ⟨s2, hs2, hp⟩
        obtain rfl : s.erase peer = s2 := by injection hs2
        rcases Finset.mem_erase.mp hp with ⟨hne, hps⟩
        exact ⟨⟨s, hmb, hps⟩, hne⟩
      · rintro ⟨⟨s2, hs2, hp⟩, hne⟩
        obtain rfl : s = s2 := by rw [hmb] at hs2; injection hs2
        exact ⟨s.erase peer, rfl, Finset.mem_erase.mpr ⟨hne, hp⟩⟩

theorem inBucket_removeFromBucket_other (m : Nat → Option (Finset Peer)) (b : Nat)
    (peer p : Peer) (b2 : Nat) (hb : b2 ≠ b) :
    inBucket (removeFromBucket m b peer) p b2 ↔ inBucket m p b2 := by
  unfold removeFromBucket
  cases hmb : m b with
  | none => exact Iff.rfl
  | some s => simp only [inBucket, if_neg hb]

theorem I2m_insertIntoBucket (m : Nat → Option (Finset Peer)) (bb : Nat) (peer : Peer)
    (h : ∀ b s, m b = some s → s ≠ ∅) :
    ∀ b s, insertIntoBucket m bb peer b = some s → s ≠ ∅ := by
  intro b s hs
  simp only [insertIntoBucket] at hs
  by_cases hb : b = bb
  · rw [if_pos hb] at hs
    obtain rfl : insert peer ((m bb).getD ∅) = s := by injection hs
    exact Finset.insert_ne_empty _ _
  · rw [if_neg hb] at hs
    exact h b s hs

theorem I2m_removeFromBucket (m : Nat → Option (Finset Peer)) (bb : Nat) (peer : Peer)
    (h : ∀ b s, m b = some s → s ≠ ∅) :
    ∀ b s, removeFromBucket m bb peer b = some s → s ≠ ∅ := by
  intro b s hs
  simp only [removeFromBucket] at hs
  cases hmb : m bb with
  | none =>
    rw [hmb] at hs
    exact h b s hs
  | some s0 =>
    rw [hmb] at hs
    simp only at hs
    by_cases hb : b = bb
    · rw [if_pos hb] at hs
      by_cases he : s0.erase peer = ∅
      · rw [if_pos he] at hs
        exact Option.noConfusion hs
      · rw [if_neg he] at hs
        obtain rfl : s0.erase peer = s := by injection hs
        exact he
    · rw [if_neg hb] at hs
      exact h b s hs

/-- The operation `set_block_number` preserves invariant I1. -/
theorem set_block_number_I1 (t : BlockTracker) (peer : Peer) (block : Nat)
    (force_create : Bool) (h1 : I1 t) :
    I1 (t.set_block_number peer block force_create) := by
  cases hpe : t.block_by_peer peer with
  | none =>
    cases force_create with
    | false =>
      simp only [BlockTracker.set_block_number, hpe, Bool.false_eq_true, if_neg]
      exact h1
    | true =>
      simp only [BlockTracker.set_block_number, hpe, if_pos]
      intro p b2
      dsimp only
      by_cases hp : p = peer
      · subst hp
        rw [Function.update_same]
        by_cases hb : b2 = block
        · subst hb
          rw [inBucket_insertIntoBucket_self]
          exact ⟨fun _ => Or.inl rfl, fun _ => rfl⟩
        · rw [inBucket_insertIntoBucket_other _ _ _ _ _ hb]
          constructor
          · intro h
            injection h with h'
            exact absurd h'.symm hb
          · intro h
            have hx := (h1 p b2).mpr h
            rw [hpe] at hx
            exact Option.noConfusion hx
      · rw [Function.update_noteq hp]
        by_cases hb : b2 = block
        · subst hb
          rw [inBucket_insertIntoBucket_self]
          constructor
          · intro h
            exact Or.inr ((h1 p b2).mp h)
          · rintro (h | h)
            · exact absurd h hp
            · exact (h1 p b2).mpr h
        · rw [inBucket_insertIntoBucket_other _ _ _ _ _ hb]
          exact h1 p b2
  | some old_block =>
    simp only [BlockTracker.set_block_number, hpe]
    intro p b2
    dsimp only
    by_cases hp : p = peer
    · subst hp
      rw [Function.update_same]
      by_cases hb : b2 = block
      · subst hb
        rw [inBucket_insertIntoBucket_self]
        exact ⟨fun _ => Or.inl rfl, fun _ => rfl⟩
      · rw [inBucket_insertIntoBucket_other _ _ _ _ _ hb]
        by_cases hob : b2 = old_block
        · subst hob
          rw [inBucket_removeFromBucket_self]
          constructor
          · intro h
            injection h with h'
            exact absurd h'.symm hb
          · rintro ⟨-, hne⟩
            exact absurd rfl hne
        · rw [inBucket_removeFromBucket_other _ _ _ _ _ hob]
          constructor
          · intro h
            injection h with h'
            exact absurd h'.symm hb
          · intro h
            have hx := (h1 p b2).mpr h
            rw [hpe] at hx
            injection hx with h'
            exact absurd h'.symm hob
    · rw [Function.update_noteq hp]
      by_cases hb : b2 = block
      · subst hb
        rw [inBucket_insertIntoBucket_self]
        by_cases hob : b2 = old_block
        · subst hob
          rw [inBucket_removeFromBucket_self]
          constructor
          · intro h
            exact Or.inr ⟨(h1 p b2).mp h, hp⟩
          · rintro (h | ⟨h, -⟩)
            · exact absurd h hp
            · exact (h1 p b2).mpr h
        · rw [inBucket_removeFromBucket_other _ _ _ _ _ hob]
          constructor
          · intro h
            exact Or.inr ((h1 p b2).mp h)
          · rintro (h | h)
            · exact absurd h hp
            · exact (h1 p b2).mpr h
      · rw [inBucket_insertIntoBucket_other _ _ _ _ _ hb]
        by_cases hob : b2 = old_block
        · subst hob
          rw [inBucket_removeFromBucket_self]
          constructor
          · intro h
            exact ⟨(h1 p b2).mp h, hp⟩
          · rintro ⟨h, -⟩
            exact (h1 p b2).mpr h
        · rw [inBucket_removeFromBucket_other _ _ _ _ _ hob]
          exact h1 p b2

/-- The operation `set_block_number` preserves invariant I2. -/
theorem set_block_number_I2 (t : BlockTracker) (peer : Peer) (block : Nat)
    (force_create : Bool) (h2 : I2 t) :
    I2 (t.set_block_number peer block force_create) := by
  cases hpe : t.block_by_peer peer with
  | none =>
    cases force_create with
    | false =>
      simp only [BlockTracker.set_block_number, hpe, Bool.false_eq_true, if_neg]
      exact h2
    | true =>
      simp only [BlockTracker.set_block_number, hpe, if_pos]
      intro b s hs
      exact I2m_insertIntoBucket _ _ _ h2 b s hs
  | some old_block =>
    simp only [BlockTracker.set_block_number, hpe]
    intro b s hs
    exact I2m_insertIntoBucket _ _ _ (I2m_removeFromBucket _ _ _ h2) b s hs

/-- The operation `remove_peer` preserves invariant I1. -/
theorem remove_peer_I1 (t : BlockTracker) (peer : Peer) (h1 : I1 t) :
    I1 (t.remove_peer peer) := by
  cases hpe : t.block_by_peer peer with
  | none =>
    simp only [BlockTracker.remove_peer, hpe]
    exact h1
  | some block =>
    simp only [BlockTracker.remove_peer, hpe]
    intro p b2
    dsimp only
    by_cases hp : p = peer
    · subst hp
      rw [Function.update_same]
      by_cases hb : b2 = block
      · subst hb
        rw [inBucket_removeFromBucket_self]
        constructor
        · intro h
          exact Option.noConfusion h
        · rintro ⟨-, hne⟩
          exact absurd rfl hne
      · rw [inBucket_removeFromBucket_other _ _ _ _ _ hb]
        constructor
        · intro h
          exact Option.noConfusion h
        · intro h
          have hx := (h1 p b2).mpr h
          rw [hpe] at hx
          injection hx with h'
          exact absurd h'.symm hb
    · rw [Function.update_noteq hp]
      by_cases hb : b2 = block
      · subst hb
        rw [inBucket_removeFromBucket_self]
        constructor
        · intro h
          exact ⟨(h1 p b2).mp h, hp⟩
        · rintro ⟨h, -⟩
          exact (h1 p b2).mpr h
      · rw [inBucket_removeFromBucket_other _ _ _ _ _ hb]
        exact h1 p b2

/-- The operation `remove_peer` preserves invariant I2. -/
theorem remove_peer_I2 (t : BlockTracker) (peer : Peer) (h2 : I2 t) :
    I2 (t.remove_peer peer) := by
  cases hpe : t.block_by_peer peer with
  | none =>
    simp only [BlockTracker.remove_peer, hpe]
    exact h2
  | some block =>
    simp only [BlockTracker.remove_peer, hpe]
    intro b s hs
    exact I2m_removeFromBucket _ _ _ h2 b s hs

/-! ## eth capability server data model (`src/main.rs` lines 50-129) -/

/-- Disconnect reasons surfaced by the dispatcher (devp2p crate). -/
inductive DisconnectReason where
  | DisconnectRequested
  | ProtocolBreach
  | UselessPeer
  | ClientQuitting
  | Other (code : Nat)
deriving DecidableEq

/-- Modelled from the spec: `EthMessageId` lives in the repository's `eth`
module, which is not among the provided sources.  The spec pins only that
`Status` is message id 0 and that all other ids are opaque pass-through, so
the non-`Status` constructors are collapsed into an abstract `Other`. -/
inductive EthMessageId where
  | Status
  | Other (id : Nat)
deriving DecidableEq

/-- Fork id: a compact `(hash, next)` pair (external `ethereum-forkid` crate). -/
structure ForkId where
  hash : Nat
  next : Nat
deriving DecidableEq

/-- Model of `StatusMessage` as constructed in `on_peer_connect` (`src/main.rs` lines
302-311): `[protocol_version, network_id, total_difficulty, best_hash,
genesis_hash, fork_id]`. -/
structure StatusMessage where
  protocol_version : Nat
  network_id : Nat
  total_difficulty : Nat
  best_hash : Nat
  genesis_hash : Nat
  fork_id : ForkId
deriving DecidableEq

/-- The type `ForkFilter` is external (`ethereum-forkid`); it is carried as an opaque
token interpreted by `EthEnv.forkValidate` / `EthEnv.forkCurrent`. -/
abbrev ForkFilter := Nat

/-- Modelled from the spec: `fork_data = {genesis, forks}` of the missing `eth`
module's `ChainStatus`. -/
structure ForkData where
  genesis : Nat
  forks : List Nat
deriving DecidableEq

/-- Modelled from the spec: `ChainStatus = (network_id, total_difficulty,
best_hash, fork_data)` of the missing `eth` module. -/
structure ChainStatus where
  network_id : Nat
  total_difficulty : Nat
  best_hash : Nat
  fork_data : ForkData
deriving DecidableEq

/-- Modelled from the spec: `FullStatusData = (status: ChainStatus,
fork_filter: ForkFilter)` of the missing `eth` module. -/
structure FullStatusData where
  status : ChainStatus
  fork_filter : ForkFilter
deriving DecidableEq

/-- Outcomes of the external calls the dispatcher makes: `rlp::decode/encode`
of `StatusMessage`, `ForkFilter::validate/current` (`ethereum-forkid`),
`EthMessageId::from_usize` and the `sentry::MessageId` renumbering.  The claims
under verification are conditional on these outcomes, so they enter as
parameters quantified over in every theorem. -/
structure EthEnv where
  decodeStatus : List Nat → Option StatusMessage
  encodeStatus : StatusMessage → List Nat
  forkValidate : ForkFilter → ForkId → Bool
  forkCurrent : ForkFilter → ForkId
  fromUsize : Nat → Option EthMessageId
  toSentryId : EthMessageId → Nat

/-- Modelled from the spec: `EthMessageId::Status.to_usize()` — the spec pins
the `Status` message id to 0 ("Only the `Status` message (id 0) is interpreted
here"). -/
def statusMsgId : Nat := 0

/-- Modelled from the spec: `capability_name()` of the missing `eth` module
returns `CapabilityName("eth")`. -/
def capabilityName : String := "eth"

/-- Model of `Message { id, data }` (devp2p). -/
structure MessageT where
  id : Nat
  data : List Nat
deriving DecidableEq

/-- Model of `OutboundEvent` (devp2p): a capability message or a disconnect. -/
inductive OutboundEvent where
  | Message (capability_name : String) (message : MessageT)
  | Disconnect (reason : DisconnectReason)
deriving DecidableEq

/-- Model of `InboundEvent` (devp2p); the capability fields the dispatcher ignores are
dropped. -/
inductive InboundEvent where
  | Disconnect (reason : DisconnectReason)
  | Message (message : MessageT)
deriving DecidableEq

/-- Model of `Pipes` (`src/main.rs` lines 55-59): the outbound side of a peer.  In the
source this is a bounded channel plus a lazy stream that first yields the
connect-time events and then drains the channel; the connect-time segment is
the per-peer state, the drained channel is I/O. -/
structure Pipes where
  firstEvents : List OutboundEvent
deriving DecidableEq

/-- The `PeerEvent` discriminator of `PeersReply` (ethereum-interfaces). -/
inductive PeerEvent where
  | Connect
  | Disconnect
deriving DecidableEq

/-- Model of `PeersReply { peer_id, event }` sent on `peers_status_sender`. -/
structure PeersReply where
  peer_id : Peer
  event : PeerEvent
deriving DecidableEq

/-- Model of `InboundMessage { id, data, peer_id }` sent on `data_sender`. -/
structure InboundMessage where
  id : Nat
  data : List Nat
  peer_id : Peer
deriving DecidableEq

/-- The mutable state of `CapabilityServerImpl` (`src/main.rs` lines 115-129).
The broadcast channels appear through their attempted sends (returned by the
operations) and the `dataSubscribed` flag; `peer_id_cache` and
`protocol_version` play no role in the claimed operations. -/
structure ServerState where
  peer_pipes : Peer → Option Pipes
  block_tracker : BlockTracker
  status_message : Option FullStatusData
  valid_peers : Finset Peer
  no_new_peers : Bool

/-- The freshly constructed server (`src/main.rs` lines 596-606): empty maps,
no status, `no_new_peers = true`. -/
def initialState : ServerState :=
  { peer_pipes := fun _ => none
    block_tracker := BlockTracker.empty
    status_message := none
    valid_peers := ∅
    no_new_peers := true }

/-! ## Operations (`src/main.rs` lines 131-268, 291-342) -/

/-- Model of `CapabilityServerImpl::setup_peer` (`src/main.rs` lines 132-138): insert
the pipes and force-create the block-tracker entry at 0.  The source `assert!`s
that the peer was absent from `peer_pipes`; that precondition is carried as a
side condition where it matters. -/
def setup_peer (st : ServerState) (peer : Peer) (p : Pipes) : ServerState :=
  { st with
    peer_pipes := Function.update st.peer_pipes peer (some p)
    block_tracker := st.block_tracker.set_block_number peer 0 true }

/-- Model of `CapabilityServerImpl::connected_peers` (`src/main.rs` lines 183-185):
`self.valid_peers.read().len()`. -/
def connected_peers (st : ServerState) : Nat :=
  st.valid_peers.card

/-- Model of `CapabilityServerImpl::set_status` (`src/main.rs` lines 187-190). -/
def set_status (st : ServerState) (message : FullStatusData) : ServerState :=
  { st with status_message := some message, no_new_peers := false }

/-- Model of `CapabilityServerImpl::teardown_peer` (`src/main.rs` lines 159-177):
remove the peer from `peer_pipes`, `block_tracker` and `valid_peers`, then
attempt one downstream `PeersReply{peer, Disconnect}`.  A failed send is only
logged, so the attempted reply is returned alongside the state rather than
influencing it. -/
def teardown_peer (st : ServerState) (peer : Peer) : ServerState × List PeersReply :=
  ({ st with
      peer_pipes := Function.update st.peer_pipes peer none
      block_tracker := st.block_tracker.remove_peer peer
      valid_peers := st.valid_peers.erase peer },
   [{ peer_id := peer, event := PeerEvent.Disconnect }])

/-- Model of `CapabilityServerImpl::on_peer_connect` (`src/main.rs` lines 291-342):
build the connect-time outbound events from `status_message` — one `Status`
message when it is set, one `Disconnect(DisconnectRequested)` when not — and
install the pipes via `setup_peer`.  `caps` is the negotiated capability
version map; the source `expect`s `caps[capability_name()]` to be present
(`getD 0` stands where the source would panic, and theorems reading the
`Status` fields assume presence). -/
def on_peer_connect (env : EthEnv) (st : ServerState) (peer : Peer)
    (caps : String → Option Nat) : ServerState :=
  let first_events :=
    match st.status_message with
    | some fsd =>
      let status_message : StatusMessage :=
        { protocol_version := (caps capabilityName).getD 0
          network_id := fsd.status.network_id
          total_difficulty := fsd.status.total_difficulty
          best_hash := fsd.status.best_hash
          genesis_hash := fsd.status.fork_data.genesis
          fork_id := env.forkCurrent fsd.fork_filter }
      [OutboundEvent.Message capabilityName
        { id := statusMsgId, data := env.encodeStatus status_message }]
    | none => [OutboundEvent.Disconnect DisconnectReason.DisconnectRequested]
  setup_peer st peer { firstEvents := first_events }

/-- The outcome of one `handle_event` call: the returned
`Result<Option<Message>, DisconnectReason>`, the state afterwards, and the
downstream sends attempted on `peers_status_sender` resp. `data_sender`. -/
structure HandleResult where
  result : Except DisconnectReason (Option MessageT)
  state : ServerState
  peersReplies : List PeersReply
  dataMsgs : List InboundMessage

/-- Model of `CapabilityServerImpl::handle_event` (`src/main.rs` lines 192-268).
`dataSubscribed` says whether `data_sender.send` succeeds; it fails exactly
when the broadcast channel has no subscriber. -/
def handle_event (env : EthEnv) (dataSubscribed : Bool) (st : ServerState)
    (peer : Peer) (event : InboundEvent) : HandleResult :=
  match event with
  | .Disconnect _reason =>
    let td := teardown_peer st peer
    { result := .ok none, state := td.1, peersReplies := td.2, dataMsgs := [] }
  | .Message msg =>
    let valid_peer := peer ∈ st.valid_peers
    match env.fromUsize msg.id with
    | none =>
      { result := .ok none, state := st, peersReplies := [], dataMsgs := [] }
    | some EthMessageId.Status =>
      match env.decodeStatus msg.data with
      | none =>
        { result := .error DisconnectReason.ProtocolBreach, state := st,
          peersReplies := [], dataMsgs := [] }
      | some v =>
        match st.status_message with
        | some fsd =>
          if env.forkValidate fsd.fork_filter v.fork_id then
            { result := .ok none
              state := { st with valid_peers := insert peer st.valid_peers }
              peersReplies := [{ peer_id := peer, event := PeerEvent.Connect }]
              dataMsgs := [] }
          else
            { result := .error DisconnectReason.UselessPeer, state := st,
              peersReplies := [], dataMsgs := [] }
        | none =>
          { result := .ok none, state := st, peersReplies := [], dataMsgs := [] }
    | some m =>
      if valid_peer then
        let sent : InboundMessage :=
          { id := env.toSentryId m, data := msg.data, peer_id := peer }
        if dataSubscribed then
          { result := .ok none, state := st, peersReplies := [], dataMsgs := [sent] }
        else
          { result := .error DisconnectReason.ClientQuitting
            state := { st with status_message := none }
            peersReplies := [], dataMsgs := [sent] }
      else
        { result := .ok none, state := st, peersReplies := [], dataMsgs := [] }

/-! ## Claim theorems: BlockTracker -/

/-- C3: for every `BlockTracker` state satisfying invariants I1 and I2, every
call to `set_block_number(peer, block, force_create)` and every call to
`remove_peer(peer)` yields a state that again satisfies I1 (a peer is mapped to
`b` in `block_by_peer` iff it is in `peers_by_block[b]` and in no other bucket)
and I2 (every bucket of `peers_by_block` is non-empty). -/
theorem C3_tracker_invariants (t : BlockTracker) (h1 : I1 t) (h2 : I2 t) :
    (∀ peer block force_create,
       I1 (t.set_block_number peer block force_create) ∧
       I2 (t.set_block_number peer block force_create)) ∧
    (∀ peer, I1 (t.remove_peer peer) ∧ I2 (t.remove_peer peer)) :=
  ⟨fun peer block fc =>
     ⟨set_block_number_I1 t peer block fc h1, set_block_number_I2 t peer block fc h2⟩,
   fun peer => ⟨remove_peer_I1 t peer h1, remove_peer_I2 t peer h2⟩⟩

theorem C3_tracker_invariants_witness :
    I1 (BlockTracker.empty.set_block_number 7 42 true) ∧
    I2 (BlockTracker.empty.set_block_number 7 42 true) :=
  (C3_tracker_invariants BlockTracker.empty I1_empty I2_empty).1 7 42 true

/-- The block-tracker churn scenario: on an empty tracker, run
`set_block_number(0, 10, true)`, `set_block_number(0, 10, false)`,
`set_block_number(0, 12, false)`. -/
def churnState : BlockTracker :=
  ((BlockTracker.empty.set_block_number 0 10 true).set_block_number 0 10
      false).set_block_number 0 12 false

/-- C8: `set_block_number(peer, block, force_create)` is a no-op when `peer` is
absent and `force_create` is false; otherwise afterwards `block_by_peer` maps
`peer` to `block`, `peer` is in `peers_by_block[block]`, and the previous
bucket no longer contains `peer` (and is pruned if it was the singleton
`{peer}`); and the churn sequence `(0,10,true); (0,10,false); (0,12,false)` on
the empty tracker yields `peers_by_block = {12: {0}}` and
`block_by_peer = {0: 12}` with no bucket for 10. -/
theorem C8_set_block_number (t : BlockTracker) (peer : Peer) (block : Nat) :
    (t.block_by_peer peer = none → t.set_block_number peer block false = t) ∧
    (∀ force_create,
      (force_create = true ∨ (t.block_by_peer peer).isSome) →
      ((t.set_block_number peer block force_create).block_by_peer peer = some block ∧
       inBucket (t.set_block_number peer block force_create).peers_by_block peer block ∧
       ∀ old_block, t.block_by_peer peer = some old_block → old_block ≠ block →
         (¬ inBucket (t.set_block_number peer block force_create).peers_by_block
              peer old_block ∧
          (t.peers_by_block old_block = some {peer} →
            (t.set_block_number peer block force_create).peers_by_block old_block =
              none)))) ∧
    (churnState.peers_by_block 12 = some {0} ∧
     (∀ b, b ≠ 12 → churnState.peers_by_block b = none) ∧
     churnState.block_by_peer 0 = some 12 ∧
     (∀ p, p ≠ 0 → churnState.block_by_peer p = none)) := by
  refine ⟨?_, ?_, ?_⟩
  · intro h
    simp [BlockTracker.set_block_number, h]
  · intro force_create hfc
    cases hpe : t.block_by_peer peer with
    | none =>
      have hf : force_create = true := by
        rcases hfc with h | h
        · exact h
        · rw [hpe] at h
          exact absurd h (by simp)
      subst hf
      simp only [BlockTracker.set_block_number, hpe, if_pos]
      refine ⟨Function.update_same _ _ _, ?_, ?_⟩
      · exact (inBucket_insertIntoBucket_self _ _ _ _).mpr (Or.inl rfl)
      · intro old_block h
        exact Option.noConfusion h
    | some old =>
      simp only [BlockTracker.set_block_number, hpe]
      refine ⟨Function.update_same _ _ _, ?_, ?_⟩
      · exact (inBucket_insertIntoBucket_self _ _ _ _).mpr (Or.inl rfl)
      · intro old_block h hob
        obtain rfl : old = old_block := by injection h
        constructor
        · intro hin
          rw [inBucket_insertIntoBucket_other _ _ _ _ _ hob] at hin
          rw [inBucket_removeFromBucket_self] at hin
          exact hin.2 rfl
        · intro hsingle
          show insertIntoBucket (removeFromBucket t.peers_by_block old peer) block
              peer old = none
          have hrm : removeFromBucket t.peers_by_block old peer old = none := by
            simp [removeFromBucket, hsingle]
          simp only [insertIntoBucket]
          rw [if_neg hob, hrm]
  · refine ⟨by decide, ?_, by decide, ?_⟩
    · intro b hb
      by_cases hb10 : b = 10
      · subst hb10
        decide
      · simp [churnState, BlockTracker.set_block_number, BlockTracker.empty,
          insertIntoBucket, removeFromBucket, Function.update_apply, hb, hb10]
    · intro p hp
      simp [churnState, BlockTracker.set_block_number, BlockTracker.empty,
        insertIntoBucket, removeFromBucket, Function.update_apply, hp]

theorem C8_set_block_number_witness :
    BlockTracker.empty.set_block_number 3 5 false = BlockTracker.empty :=
  (C8_set_block_number BlockTracker.empty 3 5).1 rfl

/-! ## Helper lemmas about the server operations -/

theorem set_block_number_self (t : BlockTracker) (peer : Peer) (block : Nat) :
    (t.set_block_number peer block true).block_by_peer peer = some block := by
  cases hpe : t.block_by_peer peer with
  | none => simp [BlockTracker.set_block_number, hpe]
  | some old => simp [BlockTracker.set_block_number, hpe]

theorem remove_peer_self (t : BlockTracker) (peer : Peer) :
    (t.remove_peer peer).block_by_peer peer = none := by
  cases hpe : t.block_by_peer peer with
  | none => simp [BlockTracker.remove_peer, hpe]
  | some block => simp [BlockTracker.remove_peer, hpe]

theorem remove_peer_frame (t : BlockTracker) (peer q : Peer) (hq : q ≠ peer) :
    (t.remove_peer peer).block_by_peer q = t.block_by_peer q ∧
    ∀ b, inBucket (t.remove_peer peer).peers_by_block q b ↔
      inBucket t.peers_by_block q b := by
  cases hpe : t.block_by_peer peer with
  | none => simp [BlockTracker.remove_peer, hpe]
  | some block =>
    simp only [BlockTracker.remove_peer, hpe]
    refine ⟨Function.update_noteq hq _ _, ?_⟩
    intro b
    by_cases hb : b = block
    · subst hb
      rw [inBucket_removeFromBucket_self]
      exact ⟨fun h => h.1, fun h => ⟨h, hq⟩⟩
    · exact inBucket_removeFromBucket_other _ _ _ _ _ hb

/-! ## Claim theorems: the eth dispatcher -/

/-- C1: handling an inbound message whose id resolves to `EthMessageId::Status`
while the full status data is set: RLP decode failure returns
`Err(ProtocolBreach)`; decode success with failing fork-id validation returns
`Err(UselessPeer)`; on success the peer is inserted into `valid_peers`, one
downstream `PeersReply{peer, Connect}` is sent, and the result is `Ok`. -/
theorem C1_status_handshake (env : EthEnv) (ds : Bool) (st : ServerState)
    (peer : Peer) (id : Nat) (data : List Nat) (fsd : FullStatusData)
    (hid : env.fromUsize id = some EthMessageId.Status)
    (hst : st.status_message = some fsd) :
    (env.decodeStatus data = none →
      (handle_event env ds st peer (.Message ⟨id, data⟩)).result =
        .error DisconnectReason.ProtocolBreach) ∧
    (∀ v, env.decodeStatus data = some v →
      env.forkValidate fsd.fork_filter v.fork_id = false →
      (handle_event env ds st peer (.Message ⟨id, data⟩)).result =
        .error DisconnectReason.UselessPeer) ∧
    (∀ v, env.decodeStatus data = some v →
      env.forkValidate fsd.fork_filter v.fork_id = true →
      ((handle_event env ds st peer (.Message ⟨id, data⟩)).result = .ok none ∧
       peer ∈ (handle_event env ds st peer (.Message ⟨id, data⟩)).state.valid_peers ∧
       (handle_event env ds st peer (.Message ⟨id, data⟩)).peersReplies =
         [{ peer_id := peer, event := PeerEvent.Connect }])) := by
  refine ⟨?_, ?_, ?_⟩
  · intro hdec
    simp [handle_event, hid, hdec]
  · intro v hdec hval
    simp [handle_event, hid, hdec, hst, hval]
  · intro v hdec hval
    refine ⟨?_, ?_, ?_⟩ <;> simp [handle_event, hid, hdec, hst, hval]

/-- C2: `on_peer_connect` creates a `Pipes` entry for the peer and sets its
block-tracker entry to 0; with `FullStatusData` set, the pipes' first outbound
segment is exactly one `Status` message (built from the chain status, the
negotiated version and `fork_filter.current()`); with no `FullStatusData`, it
is exactly one `Disconnect(DisconnectRequested)`. -/
theorem C2_on_peer_connect (env : EthEnv) (st : ServerState) (peer : Peer)
    (caps : String → Option Nat) (ver : Nat)
    (hcaps : caps capabilityName = some ver) :
    ((on_peer_connect env st peer caps).block_tracker.block_by_peer peer = some 0) ∧
    (∀ fsd, st.status_message = some fsd →
      (on_peer_connect env st peer caps).peer_pipes peer = some
        { firstEvents := [OutboundEvent.Message capabilityName
            { id := statusMsgId,
              data := env.encodeStatus
                { protocol_version := ver
                  network_id := fsd.status.network_id
                  total_difficulty := fsd.status.total_difficulty
                  best_hash := fsd.status.best_hash
                  genesis_hash := fsd.status.fork_data.genesis
                  fork_id := env.forkCurrent fsd.fork_filter } }] }) ∧
    (st.status_message = none →
      (on_peer_connect env st peer caps).peer_pipes peer = some
        { firstEvents :=
            [OutboundEvent.Disconnect DisconnectReason.DisconnectRequested] }) := by
  refine ⟨?_, ?_, ?_⟩
  · simpa [on_peer_connect, setup_peer] using set_block_number_self st.block_tracker peer 0
  · intro fsd hfsd
    simp [on_peer_connect, setup_peer, hfsd, hcaps]
  · intro hnone
    simp [on_peer_connect, setup_peer, hnone]

/-- C4: for a peer in `valid_peers`, an inbound message whose id resolves to a
known non-`Status` `EthMessageId` is forwarded as `InboundMessage{id, data,
peer}` on `data_sender`; if that send succeeds the call returns `Ok` with the
state unchanged, and if it fails (no subscriber) `status_message` is cleared
and the call returns `Err(ClientQuitting)`. -/
theorem C4_forward_inbound (env : EthEnv) (ds : Bool) (st : ServerState)
    (peer : Peer) (id : Nat) (data : List Nat) (m : EthMessageId)
    (hvalid : peer ∈ st.valid_peers)
    (hid : env.fromUsize id = some m) (hm : m ≠ EthMessageId.Status) :
    (handle_event env ds st peer (.Message ⟨id, data⟩)).dataMsgs =
      [{ id := env.toSentryId m, data := data, peer_id := peer }] ∧
    (ds = true →
      (handle_event env ds st peer (.Message ⟨id, data⟩)).result = .ok none ∧
      (handle_event env ds st peer (.Message ⟨id, data⟩)).state = st) ∧
    (ds = false →
      (handle_event env ds st peer (.Message ⟨id, data⟩)).result =
        .error DisconnectReason.ClientQuitting ∧
      (handle_event env ds st peer (.Message ⟨id, data⟩)).state =
        { st with status_message := none }) := by
  cases m with
  | Status => exact absurd rfl hm
  | Other n =>
    cases ds with
    | true =>
      refine ⟨?_, fun _ => ⟨?_, ?_⟩, fun h => Bool.noConfusion h⟩ <;>
        simp [handle_event, hid, hvalid]
    | false =>
      refine ⟨?_, fun h => Bool.noConfusion h, fun _ => ⟨?_, ?_⟩⟩ <;>
        simp [handle_event, hid, hvalid]

/-- C9: for a peer not in `valid_peers`, an inbound message whose id resolves
to a known non-`Status` `EthMessageId` returns `Ok(None)`, changes no state and
sends nothing downstream. -/
theorem C9_lenient_before_status (env : EthEnv) (ds : Bool) (st : ServerState)
    (peer : Peer) (id : Nat) (data : List Nat) (m : EthMessageId)
    (hvalid : peer ∉ st.valid_peers)
    (hid : env.fromUsize id = some m) (hm : m ≠ EthMessageId.Status) :
    (handle_event env ds st peer (.Message ⟨id, data⟩)).result = .ok none ∧
    (handle_event env ds st peer (.Message ⟨id, data⟩)).state = st ∧
    (handle_event env ds st peer (.Message ⟨id, data⟩)).dataMsgs = [] ∧
    (handle_event env ds st peer (.Message ⟨id, data⟩)).peersReplies = [] := by
  cases m with
  | Status => exact absurd rfl hm
  | Other n =>
    refine ⟨?_, ?_, ?_, ?_⟩ <;> simp [handle_event, hid, hvalid]

/-- C6: `teardown_peer(P)` removes `P` from `peer_pipes`, from the block
tracker (preserving I1/I2 and leaving `P` in no bucket) and from
`valid_peers`, and attempts exactly one downstream `PeersReply{peer,
Disconnect}`; entries for every other peer in all three structures are
unchanged, `status_message` is untouched, and the corresponding
`handle_event` disconnect path reports no error regardless of the downstream
subscriber state. -/
theorem C6_teardown (st : ServerState) (peer : Peer) :
    ((teardown_peer st peer).1.peer_pipes peer = none) ∧
    ((teardown_peer st peer).1.block_tracker.block_by_peer peer = none) ∧
    (peer ∉ (teardown_peer st peer).1.valid_peers) ∧
    ((teardown_peer st peer).2 =
      [{ peer_id := peer, event := PeerEvent.Disconnect }]) ∧
    ((teardown_peer st peer).1.status_message = st.status_message) ∧
    (I1 st.block_tracker → I2 st.block_tracker →
      (I1 (teardown_peer st peer).1.block_tracker ∧
       I2 (teardown_peer st peer).1.block_tracker ∧
       ∀ b, ¬ inBucket (teardown_peer st peer).1.block_tracker.peers_by_block
              peer b)) ∧
    (∀ q, q ≠ peer →
      ((teardown_peer st peer).1.peer_pipes q = st.peer_pipes q ∧
       (teardown_peer st peer).1.block_tracker.block_by_peer q =
         st.block_tracker.block_by_peer q ∧
       (∀ b, inBucket (teardown_peer st peer).1.block_tracker.peers_by_block q b ↔
          inBucket st.block_tracker.peers_by_block q b) ∧
       (q ∈ (teardown_peer st peer).1.valid_peers ↔ q ∈ st.valid_peers))) ∧
    (∀ env ds reason,
      (handle_event env ds st peer (.Disconnect reason)).result = .ok none ∧
      (handle_event env ds st peer (.Disconnect reason)).state =
        (teardown_peer st peer).1) := by
  refine ⟨?_, ?_, ?_, rfl, rfl, ?_, ?_, ?_⟩
  · simp [teardown_peer]
  · exact remove_peer_self st.block_tracker peer
  · simp [teardown_peer]
  · intro h1 h2
    refine ⟨remove_peer_I1 _ _ h1, remove_peer_I2 _ _ h2, ?_⟩
    intro b hin
    have hx := (remove_peer_I1 _ peer h1 peer b).mpr hin
    rw [remove_peer_self] at hx
    exact Option.noConfusion hx
  · intro q hq
    have hf := remove_peer_frame st.block_tracker peer q hq
    refine ⟨?_, hf.1, hf.2, ?_⟩
    · simp [teardown_peer, Function.update_noteq hq]
    · simp [teardown_peer, Finset.mem_erase, hq]
  · intro env ds reason
    exact ⟨rfl, rfl⟩

/-- C10: `connected_peers()` is the cardinality of `valid_peers`; a peer that
has just connected (gaining a `Pipes` entry) but has not delivered a valid
`Status` is not counted. -/
theorem C10_connected_peers (env : EthEnv) (st : ServerState) (peer : Peer)
    (caps : String → Option Nat) (hnv : peer ∉ st.valid_peers) :
    connected_peers st = st.valid_peers.card ∧
    ((on_peer_connect env st peer caps).peer_pipes peer).isSome ∧
    peer ∉ (on_peer_connect env st peer caps).valid_peers ∧
    connected_peers (on_peer_connect env st peer caps) = connected_peers st := by
  refine ⟨rfl, ?_, ?_, ?_⟩
  · simp [on_peer_connect, setup_peer]
  · simpa [on_peer_connect, setup_peer] using hnv
  · simp [connected_peers, on_peer_connect, setup_peer]

/-! ## Reachable server states and the valid⊆pipes invariant -/

theorem handle_event_state_cases (env : EthEnv) (ds : Bool) (st : ServerState)
    (peer : Peer) (ev : InboundEvent) :
    (handle_event env ds st peer ev).state = (teardown_peer st peer).1 ∨
    (handle_event env ds st peer ev).state = st ∨
    (handle_event env ds st peer ev).state =
      { st with valid_peers := insert peer st.valid_peers } ∨
    (handle_event env ds st peer ev).state = { st with status_message := none } := by
  cases ev with
  | Disconnect reason => exact Or.inl rfl
  | Message msg =>
    simp only [handle_event]
    cases henv : env.fromUsize msg.id with
    | none => exact Or.inr (Or.inl rfl)
    | some m =>
      cases m with
      | Status =>
        cases hdec : env.decodeStatus msg.data with
        | none => exact Or.inr (Or.inl rfl)
        | some v =>
          cases hsm : st.status_message with
          | none => exact Or.inr (Or.inl rfl)
          | some fsd =>
            dsimp only
            by_cases hval : env.forkValidate fsd.fork_filter v.fork_id
            · rw [if_pos hval]
              exact Or.inr (Or.inr (Or.inl rfl))
            · rw [if_neg hval]
              exact Or.inr (Or.inl rfl)
      | Other n =>
        dsimp only
        by_cases hvp : peer ∈ st.valid_peers
        · rw [if_pos hvp]
          cases ds with
          | true => exact Or.inr (Or.inl rfl)
          | false => exact Or.inr (Or.inr (Or.inr rfl))
        · rw [if_neg hvp]
          exact Or.inr (Or.inl rfl)

/-- I-VALID as a predicate on states. -/
def IValid (st : ServerState) : Prop :=
  ∀ p, p ∈ st.valid_peers → (st.peer_pipes p).isSome

theorem IValid_teardown (st : ServerState) (peer : Peer) (h : IValid st) :
    IValid (teardown_peer st peer).1 := by
  intro p hp
  simp only [teardown_peer, Finset.mem_erase] at hp ⊢
  rcases hp with ⟨hne, hp⟩
  rw [Function.update_noteq hne]
  exact h p hp

theorem IValid_setup (st : ServerState) (peer : Peer) (p : Pipes) (h : IValid st) :
    IValid (setup_peer st peer p) := by
  intro q hq
  simp only [setup_peer] at hq ⊢
  by_cases hqp : q = peer
  · subst hqp
    simp [Function.update_same]
  · rw [Function.update_noteq hqp]
    exact h q hq

/-- Interleavings of the capability-server operations from the freshly
constructed server.  `connect` carries the `assert!` of `setup_peer` (the peer
must be absent from `peer_pipes`); `event` requires the peer to be currently
connected — by the spec's ordering guarantees, events for a peer are delivered
only between its connect and its teardown. -/
inductive Reachable (env : EthEnv) : ServerState → Prop where
  | init : Reachable env initialState
  | status (st : ServerState) (fsd : FullStatusData) :
      Reachable env st → Reachable env (set_status st fsd)
  | connect (st : ServerState) (peer : Peer) (p : Pipes) :
      Reachable env st → st.peer_pipes peer = none →
      Reachable env (setup_peer st peer p)
  | event (st : ServerState) (peer : Peer) (ev : InboundEvent) (ds : Bool) :
      Reachable env st → (st.peer_pipes peer).isSome →
      Reachable env (handle_event env ds st peer ev).state
  | teardown (st : ServerState) (peer : Peer) :
      Reachable env st → Reachable env (teardown_peer st peer).1

/-- C5: in every reachable state of the capability server, every element of
`valid_peers` has a corresponding entry in `peer_pipes`. -/
theorem C5_valid_peers_have_pipes (env : EthEnv) (st : ServerState)
    (h : Reachable env st) :
    ∀ p, p ∈ st.valid_peers → (st.peer_pipes p).isSome := by
  induction h with
  | init =>
    intro p hp
    simp [initialState] at hp
  | status st fsd _ ih => exact ih
  | connect st peer pp _ _ ih => exact IValid_setup st peer pp ih
  | teardown st peer _ ih => exact IValid_teardown st peer ih
  | event st peer ev ds _ hpipes ih =>
    rcases handle_event_state_cases env ds st peer ev with h | h | h | h
    · rw [h]
      exact IValid_teardown st peer ih
    · rw [h]
      exact ih
    · rw [h]
      intro q hq
      rcases Finset.mem_insert.mp hq with rfl | hq2
      · exact hpipes
      · exact ih q hq2
    · rw [h]
      exact ih

/-! ## Concrete environment and states for closed instances -/

/-- A concrete decoded `Status` body. -/
def status0 : StatusMessage :=
  { protocol_version := 66, network_id := 1, total_difficulty := 0,
    best_hash := 0, genesis_hash := 0, fork_id := { hash := 0, next := 0 } }

/-- A concrete `FullStatusData`. -/
def fsd0 : FullStatusData :=
  { status := { network_id := 1, total_difficulty := 0, best_hash := 0,
                fork_data := { genesis := 0, forks := [] } },
    fork_filter := 0 }

/-- A concrete environment: `[1]` decodes to `status0`, fork validation
accepts fork ids with hash 0, message ids 0..16 are known with 0 = `Status`. -/
def env0 : EthEnv :=
  { decodeStatus := fun d => if d = [1] then some status0 else none
    encodeStatus := fun _ => [1]
    forkValidate := fun _ fid => fid.hash == 0
    forkCurrent := fun _ => { hash := 0, next := 0 }
    fromUsize := fun id =>
      if id = 0 then some EthMessageId.Status
      else if id ≤ 16 then some (EthMessageId.Other id) else none
    toSentryId := fun m =>
      match m with
      | .Status => 0
      | .Other n => n }

/-- A negotiated capability map carrying `eth` at version 66. -/
def caps0 : String → Option Nat :=
  fun n => if n = capabilityName then some 66 else none

/-- The server after `set_status(fsd0)`. -/
def st1 : ServerState := set_status initialState fsd0

/-- Empty connect-time pipes. -/
def pipes0 : Pipes := { firstEvents := [] }

/-- The server after peer 0 connects. -/
def st2 : ServerState := setup_peer st1 0 pipes0

/-- The server after peer 0 delivers a valid `Status`. -/
def st3 : ServerState :=
  (handle_event env0 true st2 0 (.Message { id := 0, data := [1] })).state

theorem C1_status_handshake_witness :
    (handle_event env0 true st2 0 (.Message { id := 0, data := [1] })).result =
      .ok none ∧
    0 ∈ (handle_event env0 true st2 0
          (.Message { id := 0, data := [1] })).state.valid_peers ∧
    (handle_event env0 true st2 0 (.Message { id := 0, data := [1] })).peersReplies =
      [{ peer_id := 0, event := PeerEvent.Connect }] :=
  (C1_status_handshake env0 true st2 0 0 [1] fsd0 (by decide) (by decide)).2.2
    status0 (by decide) (by decide)

theorem C2_on_peer_connect_witness :
    (on_peer_connect env0 st1 5 caps0).block_tracker.block_by_peer 5 = some 0 :=
  (C2_on_peer_connect env0 st1 5 caps0 66 (by decide)).1

theorem C4_forward_inbound_witness :
    (handle_event env0 true st3 0 (.Message { id := 3, data := [9] })).dataMsgs =
      [{ id := 3, data := [9], peer_id := 0 }] :=
  (C4_forward_inbound env0 true st3 0 3 [9] (EthMessageId.Other 3) (by decide)
    (by decide) (by decide)).1

theorem C5_valid_peers_have_pipes_witness : (st3.peer_pipes 0).isSome :=
  C5_valid_peers_have_pipes env0 st3
    (Reachable.event st2 0 (.Message { id := 0, data := [1] }) true
      (Reachable.connect st1 0 pipes0
        (Reachable.status initialState fsd0 Reachable.init) rfl)
      (by decide))
    0 (by decide)

theorem C6_teardown_witness :
    (teardown_peer st2 0).1.peer_pipes 0 = none ∧
    I1 (teardown_peer st2 0).1.block_tracker :=
  ⟨(C6_teardown st2 0).1,
   ((C6_teardown st2 0).2.2.2.2.2.1
      (set_block_number_I1 BlockTracker.empty 0 0 true I1_empty)
      (set_block_number_I2 BlockTracker.empty 0 0 true I2_empty)).1⟩

theorem C9_lenient_before_status_witness :
    (handle_event env0 true st3 1 (.Message { id := 3, data := [9] })).result =
      .ok none :=
  (C9_lenient_before_status env0 true st3 1 3 [9] (EthMessageId.Other 3)
    (by decide) (by decide) (by decide)).1

theorem C10_connected_peers_witness :
    connected_peers (on_peer_connect env0 st1 4 caps0) = connected_peers st1 :=
  (C10_connected_peers env0 st1 4 caps0 (by decide)).2.2.2

/-! ## Peer-id algebra (`devp2p/src/peer_id.rs`) -/

/-- The secp256k1 field prime. -/
def secpP : Nat := 2 ^ 256 - 2 ^ 32 - 977

/-- A valid secp256k1 public key: an affine point with field-range coordinates
satisfying y² = x³ + 7.  `secp256k1::PublicKey` values are exactly such
points (the group has prime order, so no representable point is at
infinity). -/
structure PublicKey where
  x : Nat
  y : Nat
  hx : x < secpP
  hy : y < secpP
  on_curve : (y * y) % secpP = (x * x * x + 7) % secpP

/-- Big-endian encoding of `n` into `len` bytes. -/
def toBytesBE (n len : Nat) : List Nat :=
  match len with
  | 0 => []
  | len + 1 => toBytesBE (n / 256) len ++ [n % 256]

/-- Big-endian byte decoding. -/
def fromBytesBE (bs : List Nat) : Nat :=
  bs.foldl (fun a b => a * 256 + b) 0

theorem length_toBytesBE (n len : Nat) : (toBytesBE n len).length = len := by
  induction len generalizing n with
  | zero => rfl
  | succ k ih => simp [toBytesBE, ih]

theorem fromBytesBE_append (bs : List Nat) (b : Nat) :
    fromBytesBE (bs ++ [b]) = fromBytesBE bs * 256 + b := by
  simp [fromBytesBE, List.foldl_append]

theorem fromBytesBE_toBytesBE (n len : Nat) (h : n < 256 ^ len) :
    fromBytesBE (toBytesBE n len) = n := by
  induction len generalizing n with
  | zero =>
    have hn : n = 0 := by
      have h1 : n < 1 := by simpa using h
      omega
    subst hn
    rfl
  | succ k ih =>
    show fromBytesBE (toBytesBE (n / 256) k ++ [n % 256]) = n
    rw [fromBytesBE_append, ih (n / 256) ?_]
    · omega
    · have hlt : n < 256 * 256 ^ k := by
        rw [← pow_succ']
        exact h
      exact Nat.div_lt_of_lt_mul hlt

/-- Model of `PublicKey::serialize_uncompressed` (secp256k1 crate): the 65-byte
`[0x04, X(32, BE), Y(32, BE)]` form. -/
def serialize_uncompressed (pk : PublicKey) : List Nat :=
  4 :: (toBytesBE pk.x 32 ++ toBytesBE pk.y 32)

/-- Model of `PublicKey::from_slice` (secp256k1 crate) on the 65-byte uncompressed
form: require the 0x04 tag and length 65, decode the coordinates, and accept
exactly the valid curve points. -/
def from_slice (s : List Nat) : Option PublicKey :=
  match s with
  | 4 :: rest =>
    if rest.length = 64 then
      if hx : fromBytesBE (rest.take 32) < secpP then
        if hy : fromBytesBE (rest.drop 32) < secpP then
          if hc : (fromBytesBE (rest.drop 32) * fromBytesBE (rest.drop 32)) % secpP =
              (fromBytesBE (rest.take 32) * fromBytesBE (rest.take 32) *
                 fromBytesBE (rest.take 32) + 7) % secpP then
            some ⟨fromBytesBE (rest.take 32), fromBytesBE (rest.drop 32), hx, hy, hc⟩
          else none
        else none
      else none
    else none
  | _ => none

/-- Model of `peer_id_from_pub_key` (`devp2p/src/peer_id.rs` lines 7-9):
`PeerIdPubKey::from_slice(&pk.serialize_uncompressed()[1..])` — the 64-byte
X‖Y value, as its byte list. -/
def peer_id_from_pub_key (pk : PublicKey) : List Nat :=
  (serialize_uncompressed pk).drop 1

/-- Model of `pub_key_from_peer_id` (`devp2p/src/peer_id.rs` lines 11-16): prepend the
0x04 tag and re-validate through `PublicKey::from_slice`. -/
def pub_key_from_peer_id (id : List Nat) : Option PublicKey :=
  from_slice (4 :: id)

theorem take_append_left (l₁ l₂ : List Nat) (n : Nat) (h : l₁.length = n) :
    (l₁ ++ l₂).take n = l₁ := by
  subst h
  exact List.take_left _ _

theorem drop_append_right (l₁ l₂ : List Nat) (n : Nat) (h : l₁.length = n) :
    (l₁ ++ l₂).drop n = l₂ := by
  subst h
  exact List.drop_left _ _

theorem secpP_lt : secpP < 256 ^ 32 := by
  norm_num [secpP]

/-- C7: for every valid secp256k1 public key `pk`,
`pub_key_from_peer_id(peer_id_from_pub_key(pk))` succeeds and returns `pk`. -/
theorem C7_peer_id_roundtrip (pk : PublicKey) :
    pub_key_from_peer_id (peer_id_from_pub_key pk) = some pk := by
  obtain ⟨x, y, hx, hy, hc⟩ := pk
  show from_slice (4 :: (toBytesBE x 32 ++ toBytesBE y 32)) = _
  have htake : (toBytesBE x 32 ++ toBytesBE y 32).take 32 = toBytesBE x 32 :=
    take_append_left _ _ _ (length_toBytesBE x 32)
  have hdrop : (toBytesBE x 32 ++ toBytesBE y 32).drop 32 = toBytesBE y 32 :=
    drop_append_right _ _ _ (length_toBytesBE x 32)
  have hxr : fromBytesBE (toBytesBE x 32) = x :=
    fromBytesBE_toBytesBE x 32 (lt_trans hx secpP_lt)
  have hyr : fromBytesBE (toBytesBE y 32) = y :=
    fromBytesBE_toBytesBE y 32 (lt_trans hy secpP_lt)
  have hlen : (toBytesBE x 32 ++ toBytesBE y 32).length = 64 := by
    simp [length_toBytesBE]
  simp only [from_slice, htake, hdrop, hxr, hyr, hlen, if_true]
  rw [dif_pos hx, dif_pos hy, dif_pos hc]

theorem C7_peer_id_roundtrip_witness :
    pub_key_from_peer_id (peer_id_from_pub_key
      { x := 0x79BE667EF9DCBBAC55A06295CE870B07029BFCDB2DCE28D959F2815B16F81798
        y := 0x483ADA7726A3C4655DA4FBFC0E1108A8FD17B448A68554199C47D08FFB10D4B8
        hx := by norm_num [secpP]
        hy := by norm_num [secpP]
        on_curve := by norm_num [secpP] }) = some
      { x := 0x79BE667EF9DCBBAC55A06295CE870B07029BFCDB2DCE28D959F2815B16F81798
        y := 0x483ADA7726A3C4655DA4FBFC0E1108A8FD17B448A68554199C47D08FFB10D4B8
        hx := by norm_num [secpP]
        hy := by norm_num [secpP]
        on_curve := by norm_num [secpP] } :=
  C7_peer_id_roundtrip _

end Sentry
